import Mathlib

/-!
# Verification of the FlintCoreTesting SPRT harness

Shallow embedding of the algorithmic core of the repository:
* `flintcoretest/sprt.py` — SPRT bounds, likelihood ratio, Elo conversion,
  confidence interval, and the sequential match loop (`SPRTRunner.run`,
  `SPRTRunner._play_game`);
* `flintcoretest/engine_runner.py` — the perft node-count output parser;
* `flintcoretest/perft_cases.py` — `PerftExpectation` construction validation.

Python floats are modelled as real numbers (`ℝ`); `math.pow` is `Real.rpow`,
`math.log` is `Real.log`, `math.log10` is `Real.logb 10`, `math.sqrt` is
`Real.sqrt`.  External effects (engine processes, the python-chess rules
oracle) are modelled as explicit oracle parameters.
-/

namespace FlintCoreTest

/-! ## `sprt.py`: Elo / logistic conversions -/

/-- `logistic_from_elo` (sprt.py:79–80): `1.0 / (1.0 + math.pow(10.0, -elo / 400.0))`. -/
noncomputable def logistic_from_elo (elo : ℝ) : ℝ :=
  1 / (1 + (10 : ℝ) ^ (-elo / 400))

/-- `elo_from_score` (sprt.py:83–85): clamp the score into `[1e-6, 1 - 1e-6]`,
then return `-400.0 * math.log10(1.0 / score - 1.0)`. -/
noncomputable def elo_from_score (score : ℝ) : ℝ :=
  let s := min (max score 1e-6) (1 - 1e-6);
  -400 * Real.logb 10 (1 / s - 1)

/-- `elo_with_confidence` (sprt.py:88–97).  Returns `(elo, margin)`;
`(0, 0)` when `games = 0`; `z` is `1.959964` exactly when the requested
confidence equals `0.95`, and `1.96` otherwise. -/
noncomputable def elo_with_confidence (score : ℝ) (games : Nat)
    (confidence : ℝ := 0.95) : ℝ × ℝ :=
  if games = 0 then (0, 0)
  else
    let z : ℝ := if confidence = 0.95 then 1.959964 else 1.96
    let s := min (max score 1e-6) (1 - 1e-6)
    let elo := elo_from_score s
    let sigma_p := Real.sqrt (s * (1 - s) / (games : ℝ))
    let deriv := 400 / (Real.log 10 * s * (1 - s))
    (elo, z * deriv * sigma_p)

/-! ## `sprt.py`: SPRT bounds -/

/-- `SPRTBounds` (sprt.py:12–17), a dataclass of four floats. -/
structure SPRTBounds where
  elo0 : ℝ
  elo1 : ℝ
  alpha : ℝ
  beta : ℝ

/-- `SPRTBounds.lower` (sprt.py:19–21): `math.log(self.beta / (1.0 - self.alpha))`. -/
noncomputable def SPRTBounds.lower (b : SPRTBounds) : ℝ :=
  Real.log (b.beta / (1 - b.alpha))

/-- `SPRTBounds.upper` (sprt.py:23–25): `math.log((1.0 - self.beta) / self.alpha)`. -/
noncomputable def SPRTBounds.upper (b : SPRTBounds) : ℝ :=
  Real.log ((1 - b.beta) / b.alpha)

/-- `SPRTBounds.likelihood_ratio` (sprt.py:27–34). -/
noncomputable def SPRTBounds.likelihood_ratio (b : SPRTBounds) (score : ℝ) : ℝ :=
  let p0 := logistic_from_elo b.elo0
  let p1 := logistic_from_elo b.elo1
  let eps : ℝ := 1e-9
  let s := min (max score eps) (1 - eps)
  let part1 := p1 ^ s * (1 - p1) ^ (1 - s)
  let part0 := p0 ^ s * (1 - p0) ^ (1 - s)
  Real.log (part1 / part0)

/-- **C2.** For every game score `s` and every `SPRTBounds`, the per-game
log-likelihood contribution returned by `likelihood_ratio` equals
`ln(p1^s'·(1-p1)^(1-s') / (p0^s'·(1-p0)^(1-s')))`, where `s'` is `s` clamped
into the epsilon interval, `p0 = logistic(elo0)`, `p1 = logistic(elo1)` and
`logistic(e) = 1/(1+10^(-e/400))`. -/
theorem likelihood_ratio_eq_spec_formula (b : SPRTBounds) (s : ℝ) :
    b.likelihood_ratio s =
      Real.log
        (((1 / (1 + (10 : ℝ) ^ (-b.elo1 / 400))) ^ (min (max s 1e-9) (1 - 1e-9)) *
            (1 - 1 / (1 + (10 : ℝ) ^ (-b.elo1 / 400))) ^ (1 - min (max s 1e-9) (1 - 1e-9))) /
          ((1 / (1 + (10 : ℝ) ^ (-b.elo0 / 400))) ^ (min (max s 1e-9) (1 - 1e-9)) *
            (1 - 1 / (1 + (10 : ℝ) ^ (-b.elo0 / 400))) ^ (1 - min (max s 1e-9) (1 - 1e-9)))) :=
  rfl

/-- **C3.** For every `SPRTBounds` with `alpha, beta ∈ (0,1)`, the derived
decision thresholds are `lower = ln(beta/(1-alpha))` and
`upper = ln((1-beta)/alpha)`. -/
theorem sprt_bounds_wald_thresholds (b : SPRTBounds)
    (ha0 : 0 < b.alpha) (ha1 : b.alpha < 1) (hb0 : 0 < b.beta) (hb1 : b.beta < 1) :
    b.lower = Real.log (b.beta / (1 - b.alpha)) ∧
      b.upper = Real.log ((1 - b.beta) / b.alpha) :=
  ⟨rfl, rfl⟩

/-- Witness for C3 at the default bounds `alpha = beta = 0.05`. -/
theorem sprt_bounds_wald_thresholds_witness :
    (0 : ℝ) < 0.05 ∧ (0.05 : ℝ) < 1 ∧
      (SPRTBounds.mk (-2) 2 0.05 0.05).lower = Real.log (0.05 / (1 - 0.05)) ∧
      (SPRTBounds.mk (-2) 2 0.05 0.05).upper = Real.log ((1 - 0.05) / 0.05) :=
  ⟨by norm_num, by norm_num,
    (sprt_bounds_wald_thresholds (SPRTBounds.mk (-2) 2 0.05 0.05)
      (by norm_num) (by norm_num) (by norm_num) (by norm_num)).1,
    (sprt_bounds_wald_thresholds (SPRTBounds.mk (-2) 2 0.05 0.05)
      (by norm_num) (by norm_num) (by norm_num) (by norm_num)).2⟩

/-- **C4.** `elo_from_score` and `logistic_from_elo` are mutual inverses on the
clamped domain: whenever `logistic_from_elo e` lies strictly inside
`(1e-6, 1 - 1e-6)`, the round trip reproduces `e` to within `1e-6`
(in fact exactly). -/
theorem elo_score_round_trip (e : ℝ)
    (h1 : 1e-6 < logistic_from_elo e) (h2 : logistic_from_elo e < 1 - 1e-6) :
    |elo_from_score (logistic_from_elo e) - e| ≤ 1e-6 := by
  have ht : (0 : ℝ) < (10 : ℝ) ^ (-e / 400) := Real.rpow_pos_of_pos (by norm_num) _
  have hs : elo_from_score (logistic_from_elo e) = e := by
    unfold elo_from_score
    rw [max_eq_left h1.le, min_eq_left h2.le]
    have hinv : 1 / logistic_from_elo e - 1 = (10 : ℝ) ^ (-e / 400) := by
      unfold logistic_from_elo
      rw [one_div_one_div]
      ring
    show -400 * Real.logb 10 (1 / logistic_from_elo e - 1) = e
    rw [hinv, Real.logb_rpow (by norm_num) (by norm_num)]
    ring
  rw [hs, sub_self, abs_zero]
  norm_num

/-- Witness for C4 at `e = 35.0`. -/
theorem elo_score_round_trip_witness :
    1e-6 < logistic_from_elo 35 ∧ logistic_from_elo 35 < 1 - 1e-6 ∧
      |elo_from_score (logistic_from_elo 35) - 35| ≤ 1e-6 := by
  have hkey : logistic_from_elo 35 = 1 / (1 + (10 : ℝ) ^ (-(35 : ℝ) / 400)) := rfl
  have ht0 : (0 : ℝ) < (10 : ℝ) ^ (-(35 : ℝ) / 400) := Real.rpow_pos_of_pos (by norm_num) _
  have ht1 : (10 : ℝ) ^ (-(35 : ℝ) / 400) ≤ 1 :=
    Real.rpow_le_one_of_one_le_of_nonpos (by norm_num) (by norm_num)
  have ht2 : (10 : ℝ) ^ (-1 : ℝ) ≤ (10 : ℝ) ^ (-(35 : ℝ) / 400) :=
    (Real.rpow_le_rpow_left_iff (by norm_num)).mpr (by norm_num)
  rw [Real.rpow_neg_one] at ht2
  have h1 : (1e-6 : ℝ) < logistic_from_elo 35 := by
    rw [hkey]
    have hhalf : (1 : ℝ) / 2 ≤ 1 / (1 + (10 : ℝ) ^ (-(35 : ℝ) / 400)) :=
      one_div_le_one_div_of_le (by linarith) (by linarith)
    linarith
  have h2 : logistic_from_elo 35 < 1 - 1e-6 := by
    rw [hkey]
    have hub : 1 / (1 + (10 : ℝ) ^ (-(35 : ℝ) / 400)) ≤ 1 / (11 / 10) := by
      apply one_div_le_one_div_of_le (by norm_num)
      have : (10 : ℝ)⁻¹ = 1 / 10 := by norm_num
      linarith [ht2]
    have : (1 : ℝ) / (11 / 10) < 1 - 1e-6 := by norm_num
    linarith
  exact ⟨h1, h2, elo_score_round_trip 35 h1 h2⟩

/-! Helper lemmas evaluating `elo_with_confidence` past its two `if`s. -/

lemma elo_with_confidence_of_ne_95 (score c : ℝ) (n : Nat) (hn : n ≠ 0)
    (hc : c ≠ 0.95) :
    elo_with_confidence score n c =
      (elo_from_score (min (max score 1e-6) (1 - 1e-6)),
        1.96 * (400 / (Real.log 10 * min (max score 1e-6) (1 - 1e-6) *
            (1 - min (max score 1e-6) (1 - 1e-6)))) *
          Real.sqrt (min (max score 1e-6) (1 - 1e-6) *
            (1 - min (max score 1e-6) (1 - 1e-6)) / (n : ℝ))) := by
  unfold elo_with_confidence
  rw [if_neg hn, if_neg hc]

lemma elo_with_confidence_at_95 (score : ℝ) (n : Nat) (hn : n ≠ 0) :
    elo_with_confidence score n 0.95 =
      (elo_from_score (min (max score 1e-6) (1 - 1e-6)),
        1.959964 * (400 / (Real.log 10 * min (max score 1e-6) (1 - 1e-6) *
            (1 - min (max score 1e-6) (1 - 1e-6)))) *
          Real.sqrt (min (max score 1e-6) (1 - 1e-6) *
            (1 - min (max score 1e-6) (1 - 1e-6)) / (n : ℝ))) := by
  unfold elo_with_confidence
  rw [if_neg hn, if_pos rfl]

/-- **C5, counterexample.** The claim says a non-95% confidence level returns
the same `(elo, margin)` pair as the 95% case.  It does not: the 95% branch
uses the quantile `1.959964` while every other level uses `1.96`, so at
`score = 0.75`, `n = 100` the margins differ. -/
theorem elo_with_confidence_level_counterexample :
    elo_with_confidence 0.75 100 0.9 ≠ elo_with_confidence 0.75 100 0.95 := by
  intro h
  rw [elo_with_confidence_of_ne_95 0.75 0.9 100 (by norm_num) (by norm_num),
    elo_with_confidence_at_95 0.75 100 (by norm_num), Prod.mk.injEq] at h
  obtain ⟨-, h2⟩ := h
  rw [max_eq_left (by norm_num : (1e-6 : ℝ) ≤ 0.75),
    min_eq_left (by norm_num : (0.75 : ℝ) ≤ 1 - 1e-6)] at h2
  have hD : (0 : ℝ) < 400 / (Real.log 10 * 0.75 * (1 - 0.75)) := by
    apply div_pos (by norm_num)
    have := Real.log_pos (by norm_num : (1 : ℝ) < 10)
    nlinarith
  have hS : (0 : ℝ) < Real.sqrt (0.75 * (1 - 0.75) / ((100 : ℕ) : ℝ)) := by
    rw [Real.sqrt_pos]
    norm_num
  nlinarith [mul_pos hD hS]

/-- **C5, amended.** All confidence levels other than exactly `0.95` use one
common quantile (`1.96`), so `elo_with_confidence` returns the same
`(elo, margin)` pair for any two non-95% levels; the 95% case itself uses the
slightly different quantile `1.959964`. -/
theorem elo_with_confidence_fallback (score : ℝ) (n : Nat) (c1 c2 : ℝ)
    (h1 : c1 ≠ 0.95) (h2 : c2 ≠ 0.95) :
    elo_with_confidence score n c1 = elo_with_confidence score n c2 := by
  by_cases hn : n = 0
  · simp [elo_with_confidence, hn]
  · rw [elo_with_confidence_of_ne_95 score c1 n hn h1,
      elo_with_confidence_of_ne_95 score c2 n hn h2]

/-- Witness for the amended C5 at `score = 0.5`, `n = 10`, levels 0.90/0.99. -/
theorem elo_with_confidence_fallback_witness :
    (0.9 : ℝ) ≠ 0.95 ∧ (0.99 : ℝ) ≠ 0.95 ∧
      elo_with_confidence 0.5 10 0.9 = elo_with_confidence 0.5 10 0.99 :=
  ⟨by norm_num, by norm_num,
    elo_with_confidence_fallback 0.5 10 0.9 0.99 (by norm_num) (by norm_num)⟩

lemma elo_with_confidence_snd (score c : ℝ) (n : Nat) (hn : n ≠ 0) :
    (elo_with_confidence score n c).2 =
      (if c = 0.95 then (1.959964 : ℝ) else 1.96) *
        (400 / (Real.log 10 * min (max score 1e-6) (1 - 1e-6) *
            (1 - min (max score 1e-6) (1 - 1e-6)))) *
          Real.sqrt (min (max score 1e-6) (1 - 1e-6) *
            (1 - min (max score 1e-6) (1 - 1e-6)) / (n : ℝ)) := by
  unfold elo_with_confidence
  rw [if_neg hn]

/-- **C6.** For a fixed score strictly between 0 and 1 and a fixed confidence
level, the margin returned by `elo_with_confidence` strictly decreases as the
game count increases. -/
theorem elo_with_confidence_margin_strict_anti (score conf : ℝ) (n1 n2 : Nat)
    (hs0 : 0 < score) (hs1 : score < 1) (hn1 : 0 < n1) (h12 : n1 < n2) :
    (elo_with_confidence score n2 conf).2 < (elo_with_confidence score n1 conf).2 := by
  have hn2 : 0 < n2 := hn1.trans h12
  rw [elo_with_confidence_snd score conf n2 hn2.ne',
    elo_with_confidence_snd score conf n1 hn1.ne']
  have hs0' : (0 : ℝ) < min (max score 1e-6) (1 - 1e-6) := by
    apply lt_min
    · exact lt_of_lt_of_le (by norm_num) (le_max_right _ _)
    · norm_num
  have hs1' : min (max score 1e-6) (1 - 1e-6) < 1 :=
    lt_of_le_of_lt (min_le_right _ _) (by norm_num)
  have hprod : (0 : ℝ) < min (max score 1e-6) (1 - 1e-6) *
      (1 - min (max score 1e-6) (1 - 1e-6)) := mul_pos hs0' (by linarith)
  have hlog : (0 : ℝ) < Real.log 10 := Real.log_pos (by norm_num)
  have hz : (0 : ℝ) < (if conf = 0.95 then (1.959964 : ℝ) else 1.96) := by
    split <;> norm_num
  have hD : (0 : ℝ) < 400 / (Real.log 10 * min (max score 1e-6) (1 - 1e-6) *
      (1 - min (max score 1e-6) (1 - 1e-6))) := by
    apply div_pos (by norm_num)
    have := mul_pos (mul_pos hlog hs0') (show (0 : ℝ) < 1 - min (max score 1e-6) (1 - 1e-6) by linarith)
    linarith [this]
  have hcast1 : (0 : ℝ) < (n1 : ℝ) := by exact_mod_cast hn1
  have hcast2 : (0 : ℝ) < (n2 : ℝ) := by exact_mod_cast hn2
  have hcast12 : (n1 : ℝ) < (n2 : ℝ) := by exact_mod_cast h12
  have hsqrt : Real.sqrt (min (max score 1e-6) (1 - 1e-6) *
        (1 - min (max score 1e-6) (1 - 1e-6)) / (n2 : ℝ)) <
      Real.sqrt (min (max score 1e-6) (1 - 1e-6) *
        (1 - min (max score 1e-6) (1 - 1e-6)) / (n1 : ℝ)) := by
    apply Real.sqrt_lt_sqrt (by positivity)
    exact (div_lt_div_left hprod hcast2 hcast1).mpr hcast12
  exact mul_lt_mul_of_pos_left hsqrt (mul_pos hz hD)

/-- Witness for C6 at score 0.55, confidence 0.95, n = 200 vs n = 800. -/
theorem elo_with_confidence_margin_strict_anti_witness :
    (0 : ℝ) < 0.55 ∧ (0.55 : ℝ) < 1 ∧ 0 < 200 ∧ 200 < 800 ∧
      (elo_with_confidence 0.55 800 0.95).2 < (elo_with_confidence 0.55 200 0.95).2 :=
  ⟨by norm_num, by norm_num, by norm_num, by norm_num,
    elo_with_confidence_margin_strict_anti 0.55 0.95 200 800
      (by norm_num) (by norm_num) (by norm_num) (by norm_num)⟩

/-! ## `sprt.py`: the sequential match loop (`SPRTRunner.run`) -/

/-- What `SPRTRunner.run` observes of one played game (sprt.py:136, 139):
the outcome of `_play_game` from White's perspective and the final
`len(board.move_stack)`.  Engines, openings and the board are external
processes/oracles, so game `game_idx` is supplied by an oracle
`play : Nat → GameOutcome`. -/
structure GameOutcome where
  score : ℝ
  plyCount : Nat

/-- `SPRTResult` (sprt.py:47–56). -/
structure SPRTResult where
  wins_a : Nat
  wins_b : Nat
  draws : Nat
  games_played : Nat
  llr : ℝ
  verdict : String
  penta : List Nat

/-- `penta[bin_idx] += 1` (sprt.py:140): increment one bucket of the list. -/
def bumpAt : List Nat → Nat → List Nat
  | [], _ => []
  | x :: xs, 0 => (x + 1) :: xs
  | x :: xs, n + 1 => x :: bumpAt xs n

/-- The `for game_idx in range(self.config.games)` loop of `SPRTRunner.run`
(sprt.py:132–158).  `remaining` (`= games - game_idx`) is the structural fuel;
the `0` case is the `for`/`else` clause `verdict = "max games reached"`.
`white_is_a` is `game_idx % 2 == 0`; the final `games_played` is computed as
`wins_a + wins_b + draws` exactly as at sprt.py:157. -/
noncomputable def runLoop (b : SPRTBounds) (play : Nat → GameOutcome) :
    Nat → Nat → Nat → Nat → Nat → ℝ → List Nat → SPRTResult
  | 0, _, wins_a, wins_b, draws, llr, penta =>
      ⟨wins_a, wins_b, draws, wins_a + wins_b + draws, llr, "max games reached", penta⟩
  | remaining + 1, game_idx, wins_a, wins_b, draws, llr, penta =>
      let out := play game_idx
      let score_a := if game_idx % 2 = 0 then out.score else 1 - out.score
      let llr' := llr + b.likelihood_ratio score_a
      let penta' := bumpAt penta (min (out.plyCount / 20) 4)
      let wins_a' := if score_a = 1 then wins_a + 1 else wins_a
      let wins_b' := if score_a = 1 then wins_b else if score_a = 0 then wins_b + 1 else wins_b
      let draws' := if score_a = 1 then draws else if score_a = 0 then draws else draws + 1
      if b.upper ≤ llr' then
        ⟨wins_a', wins_b', draws', wins_a' + wins_b' + draws', llr', "accept H1", penta'⟩
      else if llr' ≤ b.lower then
        ⟨wins_a', wins_b', draws', wins_a' + wins_b' + draws', llr', "accept H0", penta'⟩
      else
        runLoop b play remaining (game_idx + 1) wins_a' wins_b' draws' llr' penta'

/-- `SPRTRunner.run` (sprt.py:119–158): tallies, LLR and the five-bucket
histogram start at zero and the loop runs for up to `games` games. -/
noncomputable def SPRTRunner.run (b : SPRTBounds) (play : Nat → GameOutcome)
    (games : Nat) : SPRTResult :=
  runLoop b play games 0 0 0 0 0 [0, 0, 0, 0, 0]

/-- `score_a = outcome if white_is_a else 1.0 - outcome` (sprt.py:135–137). -/
noncomputable def scoreA (play : Nat → GameOutcome) (game_idx : Nat) : ℝ :=
  if game_idx % 2 = 0 then (play game_idx).score else 1 - (play game_idx).score

lemma scoreA_def (play : Nat → GameOutcome) (game_idx : Nat) :
    (if game_idx % 2 = 0 then (play game_idx).score else 1 - (play game_idx).score)
      = scoreA play game_idx := rfl

/-- Cumulative LLR after the first `k` games, per sprt.py:138. -/
noncomputable def llrAfter (b : SPRTBounds) (play : Nat → GameOutcome) : Nat → ℝ
  | 0 => 0
  | k + 1 => llrAfter b play k + b.likelihood_ratio (scoreA play k)

/-- Each game increments exactly one of the three tallies (sprt.py:141–146). -/
lemma tallySum (wa wb dr : Nat) (s : ℝ) :
    (if s = 1 then wa + 1 else wa) +
        (if s = 1 then wb else if s = 0 then wb + 1 else wb) +
        (if s = 1 then dr else if s = 0 then dr else dr + 1) = wa + wb + dr + 1 := by
  by_cases h1 : s = 1
  · simp [h1]
    omega
  · by_cases h0 : s = 0 <;> simp [h1, h0] <;> omega

lemma runLoop_characterization (b : SPRTBounds) (play : Nat → GameOutcome) :
    ∀ (remaining game_idx wins_a wins_b draws : Nat) (penta : List Nat)
      (r : SPRTResult),
      r = runLoop b play remaining game_idx wins_a wins_b draws
            (llrAfter b play game_idx) penta →
      (∃ k, game_idx < k ∧ k ≤ game_idx + remaining ∧
          r.llr = llrAfter b play k ∧
          r.games_played = wins_a + wins_b + draws + (k - game_idx) ∧
          (∀ j, game_idx < j → j < k →
            b.lower < llrAfter b play j ∧ llrAfter b play j < b.upper) ∧
          ((b.upper ≤ llrAfter b play k ∧ r.verdict = "accept H1") ∨
            (llrAfter b play k ≤ b.lower ∧ llrAfter b play k < b.upper ∧
              r.verdict = "accept H0"))) ∨
        (r.llr = llrAfter b play (game_idx + remaining) ∧
          r.games_played = wins_a + wins_b + draws + remaining ∧
          r.verdict = "max games reached" ∧
          (∀ j, game_idx < j → j ≤ game_idx + remaining →
            b.lower < llrAfter b play j ∧ llrAfter b play j < b.upper)) := by
  intro remaining
  induction remaining with
  | zero =>
      intro game_idx wa wb dr penta r hr
      subst hr
      right
      refine ⟨rfl, rfl, rfl, ?_⟩
      intro j hj1 hj2
      exact absurd (lt_of_lt_of_le hj1 hj2) (lt_irrefl _)
  | succ rem ih =>
      intro game_idx wa wb dr penta r hr
      have hstep : llrAfter b play (game_idx + 1)
          = llrAfter b play game_idx + b.likelihood_ratio (scoreA play game_idx) := rfl
      simp only [runLoop, scoreA_def] at hr
      rw [← hstep] at hr
      by_cases hup : b.upper ≤ llrAfter b play (game_idx + 1)
      · rw [if_pos hup] at hr
        subst hr
        left
        refine ⟨game_idx + 1, by omega, by omega, rfl, ?_, ?_, Or.inl ⟨hup, rfl⟩⟩
        · show (if scoreA play game_idx = 1 then wa + 1 else wa) + _ + _
            = wa + wb + dr + (game_idx + 1 - game_idx)
          rw [tallySum]
          omega
        · intro j hj1 hj2
          exact ((by omega : False)).elim
      · rw [if_neg hup] at hr
        by_cases hlo : llrAfter b play (game_idx + 1) ≤ b.lower
        · rw [if_pos hlo] at hr
          subst hr
          left
          refine ⟨game_idx + 1, by omega, by omega, rfl, ?_, ?_,
            Or.inr ⟨hlo, lt_of_not_le hup, rfl⟩⟩
          · show (if scoreA play game_idx = 1 then wa + 1 else wa) + _ + _
              = wa + wb + dr + (game_idx + 1 - game_idx)
            rw [tallySum]
            omega
          · intro j hj1 hj2
            exact ((by omega : False)).elim
        · rw [if_neg hlo] at hr
          have hmid : b.lower < llrAfter b play (game_idx + 1) ∧
              llrAfter b play (game_idx + 1) < b.upper :=
            ⟨lt_of_not_le hlo, lt_of_not_le hup⟩
          rcases ih (game_idx + 1) _ _ _ _ r hr with
            ⟨k, hk1, hk2, hllr, hgp, hbet, hv⟩ | ⟨hllr, hgp, hv, hbet⟩
          · left
            refine ⟨k, by omega, by omega, hllr, ?_, ?_, hv⟩
            · rw [hgp, tallySum]
              omega
            · intro j hj1 hj2
              by_cases hj : j = game_idx + 1
              · rw [hj]; exact hmid
              · exact hbet j (by omega) hj2
          · right
            have harith : game_idx + 1 + rem = game_idx + (rem + 1) := by omega
            refine ⟨?_, ?_, hv, ?_⟩
            · rw [hllr, harith]
            · rw [hgp, tallySum]
              omega
            · intro j hj1 hj2
              by_cases hj : j = game_idx + 1
              · rw [hj]; exact hmid
              · exact hbet j (by omega) (by omega)

/-- **C1.** For every match run by `SPRTRunner.run`: after each completed game
the cumulative LLR is compared against the bounds — if `LLR ≥ upper` the run
stops with verdict `AcceptAlternative` (the string `"accept H1"`); if
`LLR ≤ lower` it stops with verdict `AcceptNull` (`"accept H0"`); otherwise
play continues (every earlier cumulative LLR lies strictly between the
bounds); and if the game cap is exhausted without either bound being crossed,
the verdict is `MaxGamesReached` (`"max games reached"`). -/
theorem sprt_run_verdict (b : SPRTBounds) (play : Nat → GameOutcome) (games : Nat) :
    (∃ k, 0 < k ∧ k ≤ games ∧
        (SPRTRunner.run b play games).llr = llrAfter b play k ∧
        (SPRTRunner.run b play games).games_played = k ∧
        (∀ j, 0 < j → j < k →
          b.lower < llrAfter b play j ∧ llrAfter b play j < b.upper) ∧
        ((b.upper ≤ llrAfter b play k ∧
            (SPRTRunner.run b play games).verdict = "accept H1") ∨
          (llrAfter b play k ≤ b.lower ∧ llrAfter b play k < b.upper ∧
            (SPRTRunner.run b play games).verdict = "accept H0"))) ∨
      ((SPRTRunner.run b play games).llr = llrAfter b play games ∧
        (SPRTRunner.run b play games).games_played = games ∧
        (SPRTRunner.run b play games).verdict = "max games reached" ∧
        (∀ j, 0 < j → j ≤ games →
          b.lower < llrAfter b play j ∧ llrAfter b play j < b.upper)) := by
  rcases runLoop_characterization b play games 0 0 0 0 [0, 0, 0, 0, 0]
      (SPRTRunner.run b play games) rfl with
    ⟨k, hk1, hk2, hllr, hgp, hbet, hv⟩ | ⟨hllr, hgp, hv, hbet⟩
  · left
    exact ⟨k, hk1, by omega, hllr, by omega, hbet, hv⟩
  · right
    rw [Nat.zero_add] at hllr
    exact ⟨hllr, by omega, hv, fun j h1 h2 => hbet j h1 (by omega)⟩

lemma bumpAt_length (l : List Nat) (i : Nat) : (bumpAt l i).length = l.length := by
  induction l generalizing i with
  | nil => rfl
  | cons x xs ih =>
      cases i with
      | zero => rfl
      | succ n => simp [bumpAt, ih n]

lemma bumpAt_sum (l : List Nat) (i : Nat) (h : i < l.length) :
    (bumpAt l i).sum = l.sum + 1 := by
  induction l generalizing i with
  | nil => simp at h
  | cons x xs ih =>
      cases i with
      | zero => simp [bumpAt]; omega
      | succ n =>
          have := ih n (by simpa using h)
          simp [bumpAt, this]
          omega

lemma runLoop_tally (b : SPRTBounds) (play : Nat → GameOutcome) :
    ∀ (remaining game_idx wins_a wins_b draws : Nat) (llr : ℝ)
      (penta : List Nat) (r : SPRTResult),
      r = runLoop b play remaining game_idx wins_a wins_b draws llr penta →
      penta.length = 5 →
      r.games_played = r.wins_a + r.wins_b + r.draws ∧
        r.penta.length = 5 ∧
        r.penta.sum + (wins_a + wins_b + draws) = penta.sum + r.games_played := by
  intro remaining
  induction remaining with
  | zero =>
      intro game_idx wa wb dr llr penta r hr hlen
      subst hr
      exact ⟨rfl, hlen, rfl⟩
  | succ rem ih =>
      intro game_idx wa wb dr llr penta r hr hlen
      simp only [runLoop, scoreA_def] at hr
      have hbin : min ((play game_idx).plyCount / 20) 4 < penta.length := by
        rw [hlen]; omega
      have hsum := bumpAt_sum penta _ hbin
      have hblen := bumpAt_length penta (min ((play game_idx).plyCount / 20) 4)
      by_cases hup : b.upper ≤ llr + b.likelihood_ratio (scoreA play game_idx)
      · rw [if_pos hup] at hr
        subst hr
        refine ⟨rfl, hblen.trans hlen, ?_⟩
        show (bumpAt penta (min ((play game_idx).plyCount / 20) 4)).sum + (wa + wb + dr)
          = penta.sum +
            ((if scoreA play game_idx = 1 then wa + 1 else wa) +
              (if scoreA play game_idx = 1 then wb
                else if scoreA play game_idx = 0 then wb + 1 else wb) +
              (if scoreA play game_idx = 1 then dr
                else if scoreA play game_idx = 0 then dr else dr + 1))
        rw [hsum, tallySum]
        omega
      · rw [if_neg hup] at hr
        by_cases hlo : llr + b.likelihood_ratio (scoreA play game_idx) ≤ b.lower
        · rw [if_pos hlo] at hr
          subst hr
          refine ⟨rfl, hblen.trans hlen, ?_⟩
          show (bumpAt penta (min ((play game_idx).plyCount / 20) 4)).sum + (wa + wb + dr)
            = penta.sum +
              ((if scoreA play game_idx = 1 then wa + 1 else wa) +
                (if scoreA play game_idx = 1 then wb
                  else if scoreA play game_idx = 0 then wb + 1 else wb) +
                (if scoreA play game_idx = 1 then dr
                  else if scoreA play game_idx = 0 then dr else dr + 1))
          rw [hsum, tallySum]
          omega
        · rw [if_neg hlo] at hr
          obtain ⟨h1, h2, h3⟩ := ih _ _ _ _ _ _ r hr (by rw [hblen, hlen])
          refine ⟨h1, h2, ?_⟩
          rw [hsum] at h3
          rw [tallySum] at h3
          omega

/-- **C10.** Every `SPRTResult` produced by `SPRTRunner.run` satisfies the
tally invariant: `games_played = wins_a + wins_b + draws`, and the five
length-histogram buckets sum to `games_played`. -/
theorem sprt_run_tally_invariant (b : SPRTBounds) (play : Nat → GameOutcome)
    (games : Nat) :
    (SPRTRunner.run b play games).games_played =
        (SPRTRunner.run b play games).wins_a + (SPRTRunner.run b play games).wins_b +
          (SPRTRunner.run b play games).draws ∧
      (SPRTRunner.run b play games).penta.length = 5 ∧
      (SPRTRunner.run b play games).penta.sum =
        (SPRTRunner.run b play games).games_played := by
  obtain ⟨h1, h2, h3⟩ := runLoop_tally b play games 0 0 0 0 0 [0, 0, 0, 0, 0]
    (SPRTRunner.run b play games) rfl rfl
  have hz : ([0, 0, 0, 0, 0] : List Nat).sum = 0 := rfl
  rw [hz] at h3
  exact ⟨h1, h2, by omega⟩

/-! ## `sprt.py`: `SPRTRunner._play_game` (sprt.py:171–198)

The two engine processes and the python-chess board are external, so they are
modelled as oracles.  `PlayReply.raisedError` stands for a caught
`chess.engine.EngineError` / `EngineTerminatedError` raised by `engine.play`;
`PlayReply.returned m` is a normal return whose `result.move` is `m`
(`none` = null move).  A returned value of the game function models a normal
(exception-free) return of `_play_game`; the fuel only bounds the unrolling of
the `while` loop, `none` meaning the loop is still running. -/

/-- Outcome of one `engine.play(board, limit)` call as seen through the
`try`/`except` at sprt.py:183–188. -/
inductive PlayReply (M : Type) where
  | raisedError
  | returned (move : Option M)

/-- The pieces of the python-chess rules oracle `_play_game` consumes:
`board.is_game_over(claim_draw=True)`, `board.turn == chess.WHITE`,
`board.push(move)`, and `board.outcome(claim_draw=True)` (`none` = no
outcome object; `some w` = an outcome whose `winner` is `w`, with
`w = some true` for White, `some false` for Black, `none` for a draw). -/
structure RulesOracle (B M : Type) where
  isGameOver : B → Bool
  turnWhite : B → Bool
  push : B → M → B
  outcomeWinnerWhite : B → Option (Option Bool)

/-- `SPRTRunner._play_game` (sprt.py:171–198).  `play_a`/`play_b` are the two
engine processes (`eng_a`, `eng_b`); `white_is_a` selects which one plays
White.  In the source the forfeit branch tests `engine is white_engine`;
since `eng_a` and `eng_b` are two distinct spawned processes and the mover is
chosen as `white_engine` exactly when `board.turn == chess.WHITE`, that
identity test is the `turnWhite` test. -/
def playGame {B M α : Type} [DivisionRing α] (o : RulesOracle B M)
    (play_a play_b : B → PlayReply M) (white_is_a : Bool) :
    Nat → B → Option α
  | 0, _ => none
  | fuel + 1, board =>
    if o.isGameOver board then
      match o.outcomeWinnerWhite board with
      | none => some (1 / 2)
      | some none => some (1 / 2)
      | some (some w) => some (if w then 1 else 0)
    else
      let white_engine := if white_is_a then play_a else play_b
      let black_engine := if white_is_a then play_b else play_a
      let engine := if o.turnWhite board then white_engine else black_engine
      match engine board with
      | .raisedError => some (if o.turnWhite board then 0 else 1)
      | .returned none => some (if o.turnWhite board then 0 else 1)
      | .returned (some m) =>
          playGame o play_a play_b white_is_a fuel (o.push board m)

/-- **C7.** In every game played by `_play_game`, if the engine whose turn it
is errors/terminates (`raisedError`) or returns no move (`returned none`),
the game immediately ends — no further ply is played — as a forfeit scored
from White's perspective as a loss for the mover (`0` if the mover plays
White, `1` if the mover plays Black), and the function returns normally
(`some _`), i.e. no exception escapes to the caller. -/
theorem play_game_forfeit {B M α : Type} [DivisionRing α] (o : RulesOracle B M)
    (play_a play_b : B → PlayReply M) (white_is_a : Bool) (fuel : Nat) (board : B)
    (hover : o.isGameOver board = false)
    (hfail :
      (if o.turnWhite board then (if white_is_a then play_a else play_b)
        else (if white_is_a then play_b else play_a)) board = PlayReply.raisedError ∨
      (if o.turnWhite board then (if white_is_a then play_a else play_b)
        else (if white_is_a then play_b else play_a)) board = PlayReply.returned none) :
    playGame (α := α) o play_a play_b white_is_a (fuel + 1) board
      = some (if o.turnWhite board then 0 else 1) := by
  show (if o.isGameOver board then _ else _) = _
  rw [if_neg (by rw [hover]; exact Bool.false_ne_true)]
  rcases hfail with hfail | hfail <;> simp only [hfail]

/-- Witness for C7: a one-position board oracle where White (engine A) is to
move and engine A immediately errors; the game returns a White loss `0`. -/
theorem play_game_forfeit_witness :
    ((⟨fun _ => false, fun _ => true, fun _ _ => (), fun _ => none⟩ :
        RulesOracle Unit Unit).isGameOver () = false) ∧
      playGame (α := ℚ)
          (⟨fun _ => false, fun _ => true, fun _ _ => (), fun _ => none⟩ : RulesOracle Unit Unit)
          (fun _ => PlayReply.raisedError) (fun _ => PlayReply.returned (some ())) true 1 ()
        = some 0 := by
  constructor
  · rfl
  · have h := play_game_forfeit (α := ℚ)
      (⟨fun _ => false, fun _ => true, fun _ _ => (), fun _ => none⟩ : RulesOracle Unit Unit)
      (fun _ => PlayReply.raisedError) (fun _ => PlayReply.returned (some ())) true 0 ()
      rfl (Or.inl rfl)
    simpa using h

/-! ## `engine_runner.py`: `_parse_perft_nodes` (engine_runner.py:102–110)

Python string primitives are modelled over `List Char`, covering the ASCII
whitespace and line boundaries (`str.splitlines` also splits on a few exotic
Unicode boundaries that never occur in engine output). -/

/-- The ASCII whitespace characters of Python's `str.strip()`, `str.split()`
and `int()`: space, tab, newline, carriage return, vertical tab, form feed. -/
def isPySpace (c : Char) : Bool :=
  c == ' ' || c == '\t' || c == '\n' || c == '\r' || c == '\x0b' || c == '\x0c'

/-- Accumulator worker for `str.splitlines()`. -/
def splitLinesChAux : List Char → List Char → List (List Char)
  | acc, [] => if acc.isEmpty then [] else [acc.reverse]
  | acc, '\r' :: '\n' :: rest => acc.reverse :: splitLinesChAux [] rest
  | acc, c :: rest =>
      if c == '\n' || c == '\r' || c == '\x0b' || c == '\x0c' then
        acc.reverse :: splitLinesChAux [] rest
      else
        splitLinesChAux (c :: acc) rest

/-- Python `output.splitlines()`: split on `\n`, `\r`, `\r\n`, `\x0b`, `\x0c`;
a trailing boundary yields no final empty line. -/
def splitLinesCh (s : List Char) : List (List Char) :=
  splitLinesChAux [] s

/-- Python `line.strip()`: drop leading and trailing whitespace. -/
def stripCh (s : List Char) : List Char :=
  ((s.dropWhile isPySpace).reverse.dropWhile isPySpace).reverse

/-- Python `str.lower()` on ASCII text. -/
def lowerCh (s : List Char) : List Char :=
  s.map Char.toLower

/-- Python `str.startswith(pat)` (second argument is the pattern). -/
def startsWithCh : List Char → List Char → Bool
  | _, [] => true
  | [], _ :: _ => false
  | c :: cs, p :: ps => c == p && startsWithCh cs ps

/-- `stripped.split(":", 1)[1]`: everything after the first colon (the caller
only uses this when a colon is known to be present). -/
def afterColon : List Char → List Char
  | [] => []
  | c :: rest => if c == ':' then rest else afterColon rest

/-- Accumulator worker for whitespace `str.split()`. -/
def splitWsChAux : List Char → List Char → List (List Char)
  | acc, [] => if acc.isEmpty then [] else [acc.reverse]
  | acc, c :: rest =>
      if isPySpace c then
        if acc.isEmpty then splitWsChAux [] rest
        else acc.reverse :: splitWsChAux [] rest
      else
        splitWsChAux (c :: acc) rest

/-- Python `str.split()` with no arguments: split on whitespace runs,
discarding empty fields. -/
def splitWsCh (s : List Char) : List (List Char) :=
  splitWsChAux [] s

/-- Tail of a Python `int()` digit run: digits, with a single underscore
allowed only between digits. -/
def intDigitsTail : List Char → Bool
  | [] => true
  | '_' :: d :: rest => d.isDigit && intDigitsTail rest
  | c :: rest => c.isDigit && intDigitsTail rest

/-- A nonempty Python `int()` digit run (no leading underscore). -/
def intDigits : List Char → Bool
  | [] => false
  | d :: rest => d.isDigit && intDigitsTail rest

/-- Numeric value of a digit run, ignoring underscore separators. -/
def digitsVal (s : List Char) : Nat :=
  s.foldl (fun n c => if c == '_' then n else 10 * n + (c.toNat - '0'.toNat)) 0

/-- Python `int(text)` on a decimal string: surrounding whitespace allowed,
optional single sign, then a digit run with underscore separators.  `none`
models a raised `ValueError`. -/
def pyInt (s : List Char) : Option Int :=
  match stripCh s with
  | '+' :: rest => if intDigits rest then some (digitsVal rest : Int) else none
  | '-' :: rest => if intDigits rest then some (-(digitsVal rest : Int)) else none
  | t => if intDigits t then some (digitsVal t : Int) else none

/-- One iteration of the `for line in reversed(output.splitlines())` body
(engine_runner.py:103–109).  `none`: neither marker matched, the scan moves to
the previous line.  `some r`: a marker matched and the function returns `r`,
where `r = none` models the `ValueError` raised by `int()` on a token that is
not an integer (the second `match` arm with fewer than two fields is
unreachable because `stripped` has no trailing whitespace). -/
def lineNodes (line : List Char) : Option (Option Int) :=
  let stripped := stripCh line
  let lower := lowerCh stripped
  if startsWithCh lower ("total nodes:".toList) then
    some (pyInt (stripCh (afterColon stripped)))
  else if startsWithCh lower ("nodes ".toList) then
    match splitWsCh stripped with
    | _ :: second :: _ => some (pyInt second)
    | _ => some none
  else
    none

/-- The scan of `_parse_perft_nodes` over the reversed line list. -/
def scanPerftLines : List (List Char) → Option Int
  | [] => none
  | line :: rest =>
      match lineNodes line with
      | some r => r
      | none => scanPerftLines rest

/-- `_parse_perft_nodes` (engine_runner.py:102–110); the result `none` models
the raised `ValueError`. -/
def parse_perft_nodes (output : String) : Option Int :=
  scanPerftLines (splitLinesCh output.toList).reverse

/-- Spec-side (from the claim's words): a line matches the
"total nodes: N" / "nodes N" pattern, case-insensitively, when its stripped,
lowercased text starts with one of the two markers. -/
def matchesNodesLine (line : List Char) : Bool :=
  startsWithCh (lowerCh (stripCh line)) ("total nodes:".toList) ||
    startsWithCh (lowerCh (stripCh line)) ("nodes ".toList)

/-- Spec-side: the integer `N` carried by a marker line (`none` when the
token after the marker is not a valid integer). -/
def extractNodesLine (line : List Char) : Option Int :=
  if startsWithCh (lowerCh (stripCh line)) ("total nodes:".toList) then
    pyInt (stripCh (afterColon (stripCh line)))
  else
    match splitWsCh (stripCh line) with
    | _ :: second :: _ => pyInt second
    | _ => none

/-- **C8, counterexample.** The claim says the parser returns the integer `N`
from the last line matching either pattern and fails exactly when no line
matches.  But on `"nodes 5\nnodes five"` the line `"nodes 5"` matches the
pattern (alone it parses to `5`), yet the parser fails: the scan stops at the
later marker line `"nodes five"`, whose token is not an integer, and raises
there instead of returning 5. -/
theorem parse_perft_nodes_counterexample :
    parse_perft_nodes "nodes 5\nnodes five" = none ∧
      parse_perft_nodes "nodes 5" = some 5 ∧
      matchesNodesLine "nodes 5".toList = true := by
  refine ⟨?_, ?_, ?_⟩ <;> rfl

lemma lineNodes_eq (line : List Char) :
    lineNodes line =
      if matchesNodesLine line then some (extractNodesLine line) else none := by
  unfold lineNodes matchesNodesLine extractNodesLine
  dsimp only
  by_cases h1 : startsWithCh (lowerCh (stripCh line)) ("total nodes:".toList) = true
  · rw [h1]
    simp
  · rw [Bool.not_eq_true] at h1
    rw [h1]
    by_cases h2 : startsWithCh (lowerCh (stripCh line)) ("nodes ".toList) = true
    · rw [h2]
      rcases hsplit : splitWsCh (stripCh line) with _ | ⟨a, _ | ⟨c, rest⟩⟩ <;> simp
    · rw [Bool.not_eq_true] at h2
      rw [h2]
      simp

lemma scanPerftLines_eq (ls : List (List Char)) :
    scanPerftLines ls = (ls.find? matchesNodesLine).bind extractNodesLine := by
  induction ls with
  | nil => rfl
  | cons line rest ih =>
      simp only [scanPerftLines, lineNodes_eq, List.find?]
      by_cases h : matchesNodesLine line
      · simp [h]
      · simp only [Bool.not_eq_true] at h
        simp [h, ih]

/-- **C8, amended.** The parser scans the captured output's lines from last to
first and acts on the first line (from the end) whose stripped, lowercased
text starts with `"total nodes:"` or `"nodes "`: it returns that line's parsed
integer `N`, failing there if the token is not a valid integer; in particular
it fails exactly when no line matches either pattern or the last matching
line's token is malformed. -/
theorem parse_perft_nodes_amended (output : String) :
    parse_perft_nodes output =
      ((splitLinesCh output.toList).reverse.find? matchesNodesLine).bind
        extractNodesLine :=
  scanPerftLines_eq _

/-! ## `perft_cases.py`: `PerftExpectation` construction validation -/

/-- `PerftExpectation` (perft_cases.py:7–16): a frozen dataclass; `fen` is
`str | None` with default `None`. -/
structure PerftExpectation where
  name : String
  depth : Nat
  nodes : Nat
  startpos : Bool := false
  fen : Option String := none
  moves : List String := []

/-- Python truthiness of the `fen : str | None` field, as tested by
`not self.fen` / `self.startpos and self.fen`: both `None` and the empty
string are falsy. -/
def pyTruthy : Option String → Bool
  | none => false
  | some s => !s.isEmpty

/-- `PerftExpectation.__post_init__` (perft_cases.py:18–25): `true` iff
construction succeeds, `false` iff a `ValueError` is raised. -/
def PerftExpectation.postInitOk (e : PerftExpectation) : Bool :=
  if !e.startpos && !(pyTruthy e.fen) then false
  else if e.startpos && pyTruthy e.fen then false
  else e.moves.all (fun mv => !(decide (mv.length < 4)))

/-- Spec-side (from the claim's words): exactly one position specifier is
given — `startpos`, or a position-description string in the `fen` field —
and every move token passes the minimum-length check (length ≥ 4). -/
def specCaseValid (e : PerftExpectation) : Bool :=
  (e.startpos != e.fen.isSome) && e.moves.all (fun mv => decide (4 ≤ mv.length))

/-- **C9, counterexample.** A case with exactly one specifier given — no
`startpos`, and a position-description string (the empty one) in `fen` — and
no move tokens should, per the claim, construct successfully; but
`__post_init__` raises, because Python truthiness makes the empty string
count as "no FEN". -/
theorem perft_expectation_counterexample :
    PerftExpectation.postInitOk
        { name := "empty_fen", depth := 1, nodes := 1, startpos := false,
          fen := some "", moves := [] } = false ∧
      specCaseValid
        { name := "empty_fen", depth := 1, nodes := 1, startpos := false,
          fen := some "", moves := [] } = true := by
  exact ⟨rfl, rfl⟩

lemma moveLenBool (mv : String) :
    (!(decide (mv.length < 4))) = decide (4 ≤ mv.length) := by
  by_cases h : mv.length < 4
  · have h' : ¬(4 ≤ mv.length) := by omega
    simp [h, h']
  · have h' : 4 ≤ mv.length := by omega
    simp [h, h']

/-- **C9, amended.** Construction fails immediately exactly when the position
specifier is ill-formed or some move token is shorter than 4 characters,
where a position-description string counts as *given* only when it is
non-empty (Python truthiness): `__post_init__` succeeds iff exactly one of
`startpos` / non-empty `fen` holds and every move token has length ≥ 4. -/
theorem perft_expectation_validation (e : PerftExpectation) :
    e.postInitOk =
      ((e.startpos != pyTruthy e.fen) &&
        e.moves.all (fun mv => decide (4 ≤ mv.length))) := by
  unfold PerftExpectation.postInitOk
  simp only [moveLenBool]
  cases hs : e.startpos <;> cases ht : pyTruthy e.fen <;> simp

end FlintCoreTest
